import Mathlib

/-!
Verification of the intelligent-logging-pipeline repository.

The development shallowly embeds the DeepLog anomaly-detection service
(src/src/deeplog/src/deeplog_train.py, deeplog_training.py, deeplog.py)
and the template-clustering stage (src/src/drain3/forward_logs_to_drain3.py)
in Lean, and proves or refutes the frozen specification claims about them.

Conventions of the embedding:
- Queue payloads are the results of json.loads on the strings popped from
  the Redis list "log_sequences": a payload either fails JSON decoding
  (raising json.JSONDecodeError), or decodes to a bare JSON number, or
  decodes to a JSON array of integers.  Cluster ids are natural numbers.
- Machine floats are modelled by real numbers; the learned LSTM and
  linear-layer weights are opaque, exactly as the spec declares them
  ("parameters: opaque learned weights"), so the model carries an opaque
  function from the one-hot encoded input to the output logits.
- Fallible operations return Except; a Python exception that no handler
  in the source catches is an error value that terminates the phase.
-/

/-- A payload popped from the queue, as seen after json.loads.
`malformed` stands for a string that raises json.JSONDecodeError;
`scalar` is a bare JSON number (json.loads succeeds, but calling len on
the result raises TypeError); `intList` is a JSON array of integers. -/
inductive Payload where
  | malformed : Payload
  | scalar : Nat → Payload
  | intList : List Nat → Payload
deriving DecidableEq

/-- Prometheus run metrics of deeplog_train.py: the two counters
deeplog_anomalies_total and deeplog_normal_total and the gauge
deeplog_last_result (0 = normal, 1 = anomaly). -/
structure Metrics where
  anomalies_total : Nat
  normal_total : Nat
  last_result : Nat
deriving DecidableEq

/-- report_result from deeplog_train.py lines 58-65: on an anomaly,
increment the anomalies counter and set the gauge to 1; otherwise
increment the normal counter and set the gauge to 0. -/
def report_result (is_anomaly : Bool) (m : Metrics) : Metrics :=
  if is_anomaly then
    { m with anomalies_total := m.anomalies_total + 1, last_result := 1 }
  else
    { m with normal_total := m.normal_total + 1, last_result := 0 }

/-- The backlog-draining part of train_initial_model in
deeplog_train.py lines 88-99: pop every payload; on JSONDecodeError log
and continue; if the decoded value has length at most 20 append it to
the training sequences, else log and skip.  A payload that decodes to a
bare number makes the Python expression len(parsed_seq) raise TypeError,
which no handler in the function catches (only json.JSONDecodeError and
redis.RedisError are caught), so it escapes as an error. -/
def gatherSequences : List Payload → Except String (List (List Nat))
  | [] => .ok []
  | .malformed :: rest => gatherSequences rest
  | .scalar _ :: _ => .error "TypeError: object of type int has no len()"
  | .intList s :: rest =>
      if s.length ≤ 20 then
        match gatherSequences rest with
        | .error e => .error e
        | .ok l => .ok (s :: l)
      else gatherSequences rest

/-- The backlog-draining part of train_initial_model in
deeplog_training.py lines 46-58, whose length check is strict equality:
only decoded lists of length exactly 20 are appended. -/
def gatherSequencesEq : List Payload → Except String (List (List Nat))
  | [] => .ok []
  | .malformed :: rest => gatherSequencesEq rest
  | .scalar _ :: _ => .error "TypeError: object of type int has no len()"
  | .intList s :: rest =>
      if s.length = 20 then
        match gatherSequencesEq rest with
        | .error e => .error e
        | .ok l => .ok (s :: l)
      else gatherSequencesEq rest

/-- The acceptance filter realised by gatherSequences: an intList payload
is kept verbatim when its length is at most 20, every other payload
contributes nothing. -/
def acceptedLoose (p : Payload) : Option (List Nat) :=
  match p with
  | .intList s => if s.length ≤ 20 then some s else none
  | _ => none

/-- The acceptance filter realised by gatherSequencesEq: an intList
payload is kept verbatim when its length is exactly 20. -/
def acceptedStrict (p : Payload) : Option (List Nat) :=
  match p with
  | .intList s => if s.length = 20 then some s else none
  | _ => none

/-- train_initial_model of deeplog_train.py lines 83-138 at the level of
outcomes: drain the backlog (a TypeError escapes uncaught); if no
sequences were gathered return false (lines 104-106); otherwise the
result depends on the file write, the training pass and the push-back,
which involve external collaborators and are summarised by the
laterStepsOk parameter. -/
def train_initial_model (backlog : List Payload) (laterStepsOk : Bool) :
    Except String Bool :=
  match gatherSequences backlog with
  | .error e => .error e
  | .ok seqs => if seqs.isEmpty then .ok false else .ok laterStepsOk

/-- Outcome of the process entry point: either the process exits with the
given code before reaching detection, or it proceeds to detect_anomalies
and monitor_redis. -/
inductive MainOutcome where
  | exited : Nat → MainOutcome
  | proceeded : MainOutcome
deriving DecidableEq

/-- The main entry of deeplog_train.py lines 269-277: when the model file
is missing (none) or has zero size, run bootstrap training; if it does
not succeed, exit(1) (an uncaught exception inside training likewise
terminates CPython with exit status 1); otherwise proceed to detection
and monitoring. -/
def mainPhase (modelFileSize : Option Nat) (backlog : List Payload)
    (laterStepsOk : Bool) : MainOutcome :=
  if modelFileSize.getD 0 = 0 then
    match train_initial_model backlog laterStepsOk with
    | .error _ => .exited 1
    | .ok false => .exited 1
    | .ok true => .proceeded
  else .proceeded

/-- gatherSequences keeps exactly the decoded lists of length at most 20,
in order and verbatim. -/
theorem gatherSequences_eq_filterMap (q : List Payload) (l : List (List Nat))
    (h : gatherSequences q = .ok l) : l = q.filterMap acceptedLoose := by
  induction q generalizing l with
  | nil =>
      simp only [gatherSequences] at h
      cases h
      simp
  | cons p rest ih =>
      cases p with
      | malformed =>
          simp only [gatherSequences] at h
          simpa [List.filterMap, acceptedLoose] using ih l h
      | scalar n =>
          simp only [gatherSequences] at h
          cases h
      | intList s =>
          by_cases hs : s.length ≤ 20
          · simp only [gatherSequences, if_pos hs] at h
            cases hrest : gatherSequences rest with
            | error e => rw [hrest] at h; cases h
            | ok l0 =>
                rw [hrest] at h
                cases h
                simp [List.filterMap, acceptedLoose, if_pos hs, ih l0 hrest]
          · simp only [gatherSequences, if_neg hs] at h
            simpa [List.filterMap, acceptedLoose, if_neg hs] using ih l h

/-- gatherSequencesEq keeps exactly the decoded lists of length exactly
20, in order and verbatim. -/
theorem gatherSequencesEq_eq_filterMap (q : List Payload) (l : List (List Nat))
    (h : gatherSequencesEq q = .ok l) : l = q.filterMap acceptedStrict := by
  induction q generalizing l with
  | nil =>
      simp only [gatherSequencesEq] at h
      cases h
      simp
  | cons p rest ih =>
      cases p with
      | malformed =>
          simp only [gatherSequencesEq] at h
          simpa [List.filterMap, acceptedStrict] using ih l h
      | scalar n =>
          simp only [gatherSequencesEq] at h
          cases h
      | intList s =>
          by_cases hs : s.length = 20
          · simp only [gatherSequencesEq, if_pos hs] at h
            cases hrest : gatherSequencesEq rest with
            | error e => rw [hrest] at h; cases h
            | ok l0 =>
                rw [hrest] at h
                cases h
                simp [List.filterMap, acceptedStrict, if_pos hs, ih l0 hrest]
          · simp only [gatherSequencesEq, if_neg hs] at h
            simpa [List.filterMap, acceptedStrict, if_neg hs] using ih l h

/-- C2 counterexample: in deeplog_train.py a popped chunk of length 3,
which is not 20 = L+1, is accepted into the training set rather than
rejected: the length guard there is len at most 20, not equality. -/
theorem short_chunk_accepted_into_corpus :
    gatherSequences [Payload.intList [1, 2, 3]] = Except.ok [[1, 2, 3]] ∧
    ([1, 2, 3] : List Nat).length ≠ 20 := by
  constructor
  · rfl
  · decide

/-- C2 (amended): during tumbling training-corpus construction,
deeplog_training.py rejects every chunk whose length differs from 20 and
keeps exactly the length-20 chunks verbatim, while deeplog_train.py
rejects only chunks longer than 20 and keeps every chunk of length at
most 20 verbatim; in neither file is a chunk trimmed or padded. -/
theorem tumbling_corpus_membership (q : List Payload) (l l' : List (List Nat))
    (h : gatherSequences q = .ok l) (h' : gatherSequencesEq q = .ok l') :
    l = q.filterMap acceptedLoose ∧ l' = q.filterMap acceptedStrict :=
  ⟨gatherSequences_eq_filterMap q l h, gatherSequencesEq_eq_filterMap q l' h'⟩

/-- Witness for the amended C2 theorem at a concrete backlog. -/
theorem tumbling_corpus_membership_witness :
    [[1, 2, 3]] =
      ([Payload.malformed, Payload.intList [1, 2, 3]].filterMap acceptedLoose) ∧
    ([] : List (List Nat)) =
      ([Payload.malformed, Payload.intList [1, 2, 3]].filterMap acceptedStrict) :=
  tumbling_corpus_membership [Payload.malformed, Payload.intList [1, 2, 3]]
    [[1, 2, 3]] [] rfl rfl

/-- C7: when the persisted model is absent or has zero size and the queue
backlog yields zero valid training sequences, the process exits with the
non-zero code 1 and does not proceed to detection or monitoring. -/
theorem bootstrap_without_windows_exits_nonzero (sz : Option Nat)
    (backlog : List Payload) (laterStepsOk : Bool)
    (hsz : sz = none ∨ sz = some 0)
    (hempty : gatherSequences backlog = .ok []) :
    mainPhase sz backlog laterStepsOk = .exited 1 ∧ (1 : Nat) ≠ 0 ∧
      MainOutcome.exited 1 ≠ MainOutcome.proceeded := by
  refine ⟨?_, by decide, by simp⟩
  have hgd : sz.getD 0 = 0 := by
    rcases hsz with h | h <;> simp [h]
  simp [mainPhase, hgd, train_initial_model, hempty]

/-- Witness for C7 at a concrete environment: the model file is missing
and the backlog holds only a JSON-invalid payload and an over-long
chunk, so no valid training sequence exists. -/
theorem bootstrap_without_windows_exits_nonzero_witness :
    mainPhase none [Payload.malformed, Payload.intList (List.replicate 25 0)]
        true = .exited 1 ∧ (1 : Nat) ≠ 0 ∧
      MainOutcome.exited 1 ≠ MainOutcome.proceeded :=
  bootstrap_without_windows_exits_nonzero none
    [Payload.malformed, Payload.intList (List.replicate 25 0)] true
    (Or.inl rfl) rfl

/-- Outcome of handling one popped payload in the body of
detect_anomalies (deeplog_train.py lines 162-196) and monitor_redis
(lines 226-258).  A decoded list longer than 20 is skipped; a
JSONDecodeError is skipped; a decoded non-list raises TypeError at the
len call, uncaught by the two handlers present (json.JSONDecodeError
inside, redis.RedisError outside); a failure inside prediction (for
instance a vocabulary mismatch raised by the one-hot encoding) is
likewise uncaught; a decoded list shorter than 20 is handed to the
external preprocessor package whose behaviour the sources do not
determine. -/
inductive Outcome where
  | verdict : Bool → Outcome
  | skipLength : Outcome
  | skipMalformed : Outcome
  | typeError : Outcome
  | predictRaise : Outcome
  | external : Outcome
deriving DecidableEq

/-- One payload of the detection loop, parameterised by the predictor
pred, the function X to the list of top-k predicted ids that
custom_predict returns (none when prediction raises).  Modelled from the
spec for the window split only: preprocessor.sequence is an external
package, and the spec defines a Window as the L = 19 leading symbols
plus the trailing label, so X is the first 19 ids and y the last.  The
verdict mirrors deeplog_train.py line 183: anomaly exactly when y is
not contained in the predicted ids. -/
def classifyPayload (pred : List Nat → Option (List Nat)) (p : Payload) :
    Outcome :=
  match p with
  | .malformed => .skipMalformed
  | .scalar _ => .typeError
  | .intList seq =>
      if 20 < seq.length then .skipLength
      else if seq.length = 20 then
        match pred (seq.take 19) with
        | none => .predictRaise
        | some ypred =>
            if seq.getD 19 0 ∈ ypred then .verdict false else .verdict true
      else .external

/-- How a detection or monitoring run ends in the model: the queue
drained normally, or the phase died on an uncaught TypeError or
prediction exception, or control left the modelled fragment (a short
sequence reaching the external preprocessor). -/
inductive RunEnd where
  | drained : RunEnd
  | typeError : RunEnd
  | predictRaise : RunEnd
  | external : RunEnd
deriving DecidableEq

/-- State threaded through the detection loop: the running
sequence_index, the report lines written to anomaly_results.txt as
(index, is_anomaly) pairs, the Prometheus metrics, and the indices
collected in the anomalies list. -/
structure LoopState where
  index : Nat
  reportLines : List (Nat × Bool)
  metrics : Metrics
  anomalies : List Nat
deriving DecidableEq

/-- The drain loop of detect_anomalies, deeplog_train.py lines 162-196
(monitor_redis handles each payload identically): pop payloads in order;
on a verdict write one report line, update the metrics via report_result
and advance the index; on either skip only advance the index; an
uncaught exception ends the loop with the state reached so far. -/
def runLoop (pred : List Nat → Option (List Nat)) :
    LoopState → List Payload → LoopState × RunEnd
  | s, [] => (s, .drained)
  | s, p :: rest =>
      match classifyPayload pred p with
      | .verdict b =>
          runLoop pred
            { index := s.index + 1,
              reportLines := s.reportLines ++ [(s.index, b)],
              metrics := report_result b s.metrics,
              anomalies := if b then s.anomalies ++ [s.index] else s.anomalies }
            rest
      | .skipLength => runLoop pred { s with index := s.index + 1 } rest
      | .skipMalformed => runLoop pred { s with index := s.index + 1 } rest
      | .typeError => (s, .typeError)
      | .predictRaise => (s, .predictRaise)
      | .external => (s, .external)

/-- A payload is handled by the loop body (into a verdict or one of the
two skips) exactly when it is JSON-malformed, an over-long list, or a
length-20 list on which prediction succeeds. -/
def handleable (pred : List Nat → Option (List Nat)) : Payload → Bool
  | .malformed => true
  | .scalar _ => false
  | .intList s =>
      if 20 < s.length then true
      else if s.length = 20 then (pred (s.take 19)).isSome
      else false

/-- Handling one handleable payload advances the index by exactly one and
either leaves the report lines unchanged (a skip) or appends one line
carrying the pre-advance index (a verdict). -/
theorem runLoop_step_handleable (pred : List Nat → Option (List Nat))
    (p : Payload) (hp : handleable pred p = true) (s : LoopState) :
    ∃ s', (∀ rest, runLoop pred s (p :: rest) = runLoop pred s' rest) ∧
      s'.index = s.index + 1 ∧
      (s'.reportLines = s.reportLines ∨
        ∃ b, s'.reportLines = s.reportLines ++ [(s.index, b)]) := by
  cases p with
  | malformed =>
      exact ⟨{ s with index := s.index + 1 }, fun rest => rfl, rfl, Or.inl rfl⟩
  | scalar n => simp [handleable] at hp
  | intList s0 =>
      by_cases h1 : 20 < s0.length
      · refine ⟨{ s with index := s.index + 1 }, fun rest => ?_, rfl, Or.inl rfl⟩
        simp [runLoop, classifyPayload, if_pos h1]
      · by_cases h2 : s0.length = 20
        · have hsome : (pred (s0.take 19)).isSome := by
            simpa [handleable, if_neg h1, if_pos h2] using hp
          obtain ⟨ypred, hy⟩ := Option.isSome_iff_exists.mp hsome
          by_cases hm : s0[19]?.getD 0 ∈ ypred
          · refine ⟨{ index := s.index + 1,
                      reportLines := s.reportLines ++ [(s.index, false)],
                      metrics := report_result false s.metrics,
                      anomalies := s.anomalies }, fun rest => ?_, rfl,
                      Or.inr ⟨false, rfl⟩⟩
            simp [runLoop, classifyPayload, if_neg h1, if_pos h2, hy, hm]
          · refine ⟨{ index := s.index + 1,
                      reportLines := s.reportLines ++ [(s.index, true)],
                      metrics := report_result true s.metrics,
                      anomalies := s.anomalies ++ [s.index] }, fun rest => ?_,
                      rfl, Or.inr ⟨true, rfl⟩⟩
            simp [runLoop, classifyPayload, if_neg h1, if_pos h2, hy, hm]
        · simp [handleable, if_neg h1, if_neg h2] at hp

/-- A run over handleable payloads drains the whole queue. -/
theorem runLoop_drained (pred : List Nat → Option (List Nat)) :
    ∀ (ps : List Payload) (s : LoopState),
    (∀ p ∈ ps, handleable pred p = true) →
    (runLoop pred s ps).2 = RunEnd.drained := by
  intro ps
  induction ps with
  | nil => intro s _; rfl
  | cons p rest ih =>
      intro s h
      obtain ⟨s', heq, _, _⟩ :=
        runLoop_step_handleable pred p (h p (List.mem_cons_self p rest)) s
      rw [heq rest]
      exact ih s' fun q hq => h q (List.mem_cons_of_mem p hq)

/-- Invariant form of the report-line bookkeeping: over handleable
payloads the index grows by the number of payloads, report-line indices
stay strictly increasing and below the running index, and every new line
carries an index at least the starting index. -/
theorem runLoop_report_invariant (pred : List Nat → Option (List Nat)) :
    ∀ (ps : List Payload) (s : LoopState),
    (∀ p ∈ ps, handleable pred p = true) →
    (∀ e ∈ s.reportLines, e.1 < s.index) →
    s.reportLines.Pairwise (fun a b => a.1 < b.1) →
    (runLoop pred s ps).1.index = s.index + ps.length ∧
    (runLoop pred s ps).1.reportLines.Pairwise (fun a b => a.1 < b.1) ∧
    (∀ e ∈ (runLoop pred s ps).1.reportLines,
      e.1 < (runLoop pred s ps).1.index) ∧
    (∀ e ∈ (runLoop pred s ps).1.reportLines,
      e ∈ s.reportLines ∨ s.index ≤ e.1) := by
  intro ps
  induction ps with
  | nil =>
      intro s _ hb hpw
      exact ⟨(Nat.add_zero s.index).symm, hpw, hb, fun e he => Or.inl he⟩
  | cons p rest ih =>
      intro s h hb hpw
      obtain ⟨s', heq, hidx, hlines⟩ :=
        runLoop_step_handleable pred p (h p (List.mem_cons_self p rest)) s
      have hb' : ∀ e ∈ s'.reportLines, e.1 < s'.index := by
        intro e he
        rcases hlines with hl | ⟨b, hl⟩
        · rw [hl] at he
          exact hidx ▸ Nat.lt_succ_of_lt (hb e he)
        · rw [hl, List.mem_append] at he
          rcases he with he | he
          · exact hidx ▸ Nat.lt_succ_of_lt (hb e he)
          · simp only [List.mem_singleton] at he
            rw [he, hidx]
            exact Nat.lt_succ_self s.index
      have hpw' : s'.reportLines.Pairwise (fun a b => a.1 < b.1) := by
        rcases hlines with hl | ⟨b, hl⟩
        · rw [hl]; exact hpw
        · rw [hl]
          refine List.pairwise_append.mpr ⟨hpw, List.pairwise_singleton _ _, ?_⟩
          intro a ha c hc
          simp only [List.mem_singleton] at hc
          rw [hc]
          exact hb a ha
      have hmono : ∀ e ∈ s'.reportLines, e ∈ s.reportLines ∨ s.index ≤ e.1 := by
        intro e he
        rcases hlines with hl | ⟨b, hl⟩
        · rw [hl] at he; exact Or.inl he
        · rw [hl, List.mem_append] at he
          rcases he with he | he
          · exact Or.inl he
          · simp only [List.mem_singleton] at he
            exact Or.inr (he ▸ Nat.le_refl s.index)
      obtain ⟨hi, hp2, hb2, hm2⟩ :=
        ih s' (fun q hq => h q (List.mem_cons_of_mem p hq)) hb' hpw'
      refine ⟨?_, ?_, ?_, ?_⟩
      · rw [heq rest, hi, hidx]
        simp only [List.length_cons]
        omega
      · rw [heq rest]; exact hp2
      · rw [heq rest]; exact hb2
      · rw [heq rest]
        intro e he
        rcases hm2 e he with hin | hge
        · rcases hmono e hin with hin2 | hge2
          · exact Or.inl hin2
          · exact Or.inr hge2
        · refine Or.inr ?_
          rw [hidx] at hge
          omega

/-- C10: within one detection or monitoring run over payloads the loop
handles, the sequence index advances by exactly one per popped payload,
the run drains, and the indices on the written report lines are strictly
increasing, hence unique. -/
theorem report_line_indices_strictly_increase
    (pred : List Nat → Option (List Nat)) (ps : List Payload) (i0 : Nat)
    (m0 : Metrics) (h : ∀ p ∈ ps, handleable pred p = true) :
    (runLoop pred ⟨i0, [], m0, []⟩ ps).2 = RunEnd.drained ∧
    (runLoop pred ⟨i0, [], m0, []⟩ ps).1.index = i0 + ps.length ∧
    (runLoop pred ⟨i0, [], m0, []⟩ ps).1.reportLines.Pairwise
      (fun a b => a.1 < b.1) := by
  obtain ⟨hi, hp2, _, _⟩ := runLoop_report_invariant pred ps ⟨i0, [], m0, []⟩ h
    (by intro e he; cases he) (List.Pairwise.nil)
  exact ⟨runLoop_drained pred ps _ h, hi, hp2⟩

/-- Witness for C10 on a concrete run: a JSON-invalid payload, a valid
window and an over-long chunk, starting from index 250. -/
theorem report_line_indices_strictly_increase_witness :
    (runLoop (fun _ => some []) ⟨250, [], ⟨0, 0, 0⟩, []⟩
        [Payload.malformed, Payload.intList (List.replicate 20 0),
         Payload.intList (List.replicate 21 1)]).2 = RunEnd.drained ∧
    (runLoop (fun _ => some []) ⟨250, [], ⟨0, 0, 0⟩, []⟩
        [Payload.malformed, Payload.intList (List.replicate 20 0),
         Payload.intList (List.replicate 21 1)]).1.index =
      250 + [Payload.malformed, Payload.intList (List.replicate 20 0),
         Payload.intList (List.replicate 21 1)].length ∧
    (runLoop (fun _ => some []) ⟨250, [], ⟨0, 0, 0⟩, []⟩
        [Payload.malformed, Payload.intList (List.replicate 20 0),
         Payload.intList (List.replicate 21 1)]).1.reportLines.Pairwise
      (fun a b => a.1 < b.1) :=
  report_line_indices_strictly_increase (fun _ => some [])
    [Payload.malformed, Payload.intList (List.replicate 20 0),
     Payload.intList (List.replicate 21 1)] 250 ⟨0, 0, 0⟩ (by decide)

/-- C6: after every anomaly decision the loop updates the metrics through
report_result: the counter total grows by exactly one, on an anomalous
verdict only anomalies_total is incremented and the gauge is set to 1,
on a normal verdict only normal_total is incremented and the gauge is
set to 0. -/
theorem decision_updates_exactly_one_counter
    (pred : List Nat → Option (List Nat)) (s : LoopState) (p : Payload)
    (rest : List Payload) (b : Bool)
    (h : classifyPayload pred p = Outcome.verdict b) :
    ∃ s', runLoop pred s (p :: rest) = runLoop pred s' rest ∧
      s'.metrics = report_result b s.metrics ∧
      s'.metrics.anomalies_total + s'.metrics.normal_total =
        s.metrics.anomalies_total + s.metrics.normal_total + 1 ∧
      (b = true → s'.metrics.anomalies_total = s.metrics.anomalies_total + 1 ∧
        s'.metrics.normal_total = s.metrics.normal_total ∧
        s'.metrics.last_result = 1) ∧
      (b = false → s'.metrics.normal_total = s.metrics.normal_total + 1 ∧
        s'.metrics.anomalies_total = s.metrics.anomalies_total ∧
        s'.metrics.last_result = 0) := by
  refine ⟨{ index := s.index + 1,
            reportLines := s.reportLines ++ [(s.index, b)],
            metrics := report_result b s.metrics,
            anomalies := if b then s.anomalies ++ [s.index] else s.anomalies },
          ?_, rfl, ?_, ?_, ?_⟩
  · simp [runLoop, h]
  · cases b <;> simp [report_result] <;> omega
  · intro hb; subst hb; simp [report_result]
  · intro hb; subst hb; simp [report_result]

/-- Witness for C6: a valid length-20 window whose label 0 is not in the
predicted set, so the verdict is anomalous. -/
theorem decision_updates_exactly_one_counter_witness :
    ∃ s', runLoop (fun _ => some [7]) ⟨250, [], ⟨3, 4, 0⟩, []⟩
        (Payload.intList (List.replicate 20 0) :: []) =
        runLoop (fun _ => some [7]) s' [] ∧
      s'.metrics = report_result true (⟨3, 4, 0⟩ : Metrics) ∧
      s'.metrics.anomalies_total + s'.metrics.normal_total = 3 + 4 + 1 ∧
      (true = true → s'.metrics.anomalies_total = 3 + 1 ∧
        s'.metrics.normal_total = 4 ∧ s'.metrics.last_result = 1) ∧
      (true = false → s'.metrics.normal_total = 4 + 1 ∧
        s'.metrics.anomalies_total = 3 ∧ s'.metrics.last_result = 0) :=
  decision_updates_exactly_one_counter (fun _ => some [7])
    ⟨250, [], ⟨3, 4, 0⟩, []⟩ (Payload.intList (List.replicate 20 0)) [] true
    (by decide)

/-- C9 counterexample: the payload 5 is valid JSON but not a list of
integers; the claim says such a payload is skipped and the loop
continues, but the code raises TypeError at len(seq), caught by neither
handler, so the run ends immediately and the following JSON-invalid
payload is never handled. -/
theorem nonlist_payload_kills_detection_loop :
    runLoop (fun _ => some []) ⟨250, [], ⟨0, 0, 0⟩, []⟩
        [Payload.scalar 5, Payload.malformed] =
      (⟨250, [], ⟨0, 0, 0⟩, []⟩, RunEnd.typeError) ∧
    RunEnd.typeError ≠ RunEnd.drained :=
  ⟨rfl, by decide⟩

/-- C9 (amended): a payload that fails JSON decoding is skipped with a
warning and the loop continues with the next payload and drains a
handleable remainder; but a payload that decodes to a JSON value that is
not a list, such as a bare integer, raises an uncaught TypeError that
terminates the phase with the queue unread. -/
theorem malformed_json_skipped_nonlist_fatal
    (pred : List Nat → Option (List Nat)) (s : LoopState) (n : Nat)
    (rest : List Payload) (hrest : ∀ p ∈ rest, handleable pred p = true) :
    runLoop pred s (Payload.malformed :: rest) =
      runLoop pred { s with index := s.index + 1 } rest ∧
    (runLoop pred s (Payload.malformed :: rest)).2 = RunEnd.drained ∧
    runLoop pred s (Payload.scalar n :: rest) = (s, RunEnd.typeError) := by
  refine ⟨rfl, ?_, rfl⟩
  exact runLoop_drained pred (Payload.malformed :: rest) s
    (by intro q hq
        rcases List.mem_cons.mp hq with hq | hq
        · rw [hq]; rfl
        · exact hrest q hq)

/-- Witness for the amended C9 theorem on a concrete queue. -/
theorem malformed_json_skipped_nonlist_fatal_witness :
    runLoop (fun _ => some []) ⟨250, [], ⟨0, 0, 0⟩, []⟩
        (Payload.malformed :: [Payload.malformed]) =
      runLoop (fun _ => some []) ⟨250 + 1, [], ⟨0, 0, 0⟩, []⟩
        [Payload.malformed] ∧
    (runLoop (fun _ => some []) ⟨250, [], ⟨0, 0, 0⟩, []⟩
        (Payload.malformed :: [Payload.malformed])).2 = RunEnd.drained ∧
    runLoop (fun _ => some []) ⟨250, [], ⟨0, 0, 0⟩, []⟩
        (Payload.scalar 5 :: [Payload.malformed]) =
      (⟨250, [], ⟨0, 0, 0⟩, []⟩, RunEnd.typeError) :=
  malformed_json_skipped_nonlist_fatal (fun _ => some [])
    ⟨250, [], ⟨0, 0, 0⟩, []⟩ 5 [Payload.malformed] (by decide)

/-- F.one_hot from DeepLog.forward (deeplog.py line 59): encode a class
value as a 0/1 vector of length numClasses, raising a RuntimeError when
the value is not strictly below numClasses (torch never clamps it). -/
def one_hot (x numClasses : Nat) : Except String (List Nat) :=
  if x < numClasses then
    .ok ((List.range numClasses).map fun i => if i = x then 1 else 0)
  else .error "RuntimeError: Class values must be smaller than num_classes."

/-- Elementwise one-hot encoding of an input window, the first step of
DeepLog.forward; the first out-of-range symbol aborts the call. -/
def encodeWindow (V : Nat) : List Nat → Except String (List (List Nat))
  | [] => .ok []
  | x :: xs =>
      match one_hot x V with
      | .error e => .error e
      | .ok v =>
          match encodeWindow V xs with
          | .error e => .error e
          | .ok vs => .ok (v :: vs)

/-- The DeepLog model of deeplog.py with vocabulary size V (input_size =
output_size = V, 17 in deeplog_train.py line 37): the stacked LSTM and
the linear output layer are opaque learned weights, carried as a
function from the one-hot encoded input to the V output logits; the
training flag records train versus eval mode. -/
structure DeepLogModel (V : Nat) where
  weights : List (List Nat) → Fin V → ℝ
  training : Bool

/-- The softmax probability distribution over the vocabulary, as
computed by torch.softmax in custom_predict (deeplog_train.py line
75). -/
noncomputable def softmax {V : Nat} (v : Fin V → ℝ) : Fin V → ℝ :=
  fun i => Real.exp (v i) / ∑ j, Real.exp (v j)

/-- nn.LogSoftmax applied by DeepLog.forward (deeplog.py line 70). -/
noncomputable def logSoftmaxFn {V : Nat} (v : Fin V → ℝ) : Fin V → ℝ :=
  fun i => Real.log (softmax v i)

/-- DeepLog.forward (deeplog.py lines 45-73): one-hot encode the input
window, pass it through the opaque LSTM and linear layers, and apply
LogSoftmax; an out-of-range symbol propagates the one-hot error. -/
noncomputable def forwardDL {V : Nat} (m : DeepLogModel V) (X : List Nat) :
    Except String (Fin V → ℝ) :=
  match encodeWindow V X with
  | .error e => .error e
  | .ok enc => .ok (logSoftmaxFn (m.weights enc))

/-- Ranking used by torch.topk: higher probability first, ties broken by
lower index. -/
def probAbove {V : Nat} (p : Fin V → ℝ) (i j : Fin V) : Prop :=
  p j < p i ∨ (p i = p j ∧ i ≤ j)

/-- Classical decidability for the real-valued ranking. -/
noncomputable def probAboveDec {V : Nat} (p : Fin V → ℝ) :
    DecidableRel (probAbove p) := fun _ _ => Classical.dec _

/-- All vocabulary indices sorted by descending probability. -/
noncomputable def sortedByProb {V : Nat} (p : Fin V → ℝ) : List (Fin V) :=
  @List.insertionSort (Fin V) (probAbove p) (probAboveDec p) (List.finRange V)

/-- torch.topk on the probability vector: the k highest-probability
vocabulary indices. -/
noncomputable def topkIndices {V : Nat} (p : Fin V → ℝ) (k : Nat) :
    List (Fin V) :=
  (sortedByProb p).take k

/-- custom_predict from deeplog_train.py lines 70-78: switch the model to
eval mode, forward the window, softmax the outputs, take the top k, and
return the indices with their probabilities; the true label y is only
logged, never used. -/
noncomputable def custom_predict {V : Nat} (m : DeepLogModel V)
    (X : List Nat) (y : Nat) (k : Nat) :
    Except String (List (Fin V) × List ℝ) × DeepLogModel V :=
  let m2 := { m with training := false }
  match forwardDL m2 X with
  | .error e => (.error e, m2)
  | .ok outputs =>
      let probabilities := softmax outputs
      let idxs := topkIndices probabilities k
      (.ok (idxs, idxs.map probabilities), m2)

/-- Encoding succeeds exactly when every symbol is inside the
vocabulary: success half. -/
theorem encodeWindow_ok {V : Nat} (X : List Nat) (h : ∀ x ∈ X, x < V) :
    ∃ enc, encodeWindow V X = .ok enc := by
  induction X with
  | nil => exact ⟨[], rfl⟩
  | cons x xs ih =>
      have hx : x < V := h x (List.mem_cons_self x xs)
      obtain ⟨enc, henc⟩ := ih fun z hz => h z (List.mem_cons_of_mem x hz)
      exact ⟨((List.range V).map fun i => if i = x then 1 else 0) :: enc,
        by simp [encodeWindow, one_hot, if_pos hx, henc]⟩

/-- Encoding fails when some symbol reaches the vocabulary size. -/
theorem encodeWindow_error {V : Nat} (X : List Nat) (h : ∃ x ∈ X, V ≤ x) :
    ∃ e, encodeWindow V X = .error e := by
  induction X with
  | nil =>
      obtain ⟨x, hx, _⟩ := h
      cases hx
  | cons x xs ih =>
      by_cases hx : x < V
      · obtain ⟨z, hz, hzV⟩ := h
        rcases List.mem_cons.mp hz with rfl | hz2
        · omega
        · obtain ⟨e, he⟩ := ih ⟨z, hz2, hzV⟩
          exact ⟨e, by simp [encodeWindow, one_hot, if_pos hx, he]⟩
      · exact ⟨"RuntimeError: Class values must be smaller than num_classes.",
          by simp [encodeWindow, one_hot, if_neg hx]⟩

/-- Softmax probabilities are nonnegative. -/
theorem softmax_nonneg {V : Nat} (v : Fin V → ℝ) (i : Fin V) :
    0 ≤ softmax v i :=
  div_nonneg (Real.exp_pos _).le (Finset.sum_nonneg fun j _ => (Real.exp_pos _).le)

/-- Softmax probabilities sum to one over the full vocabulary. -/
theorem softmax_sum_eq_one {V : Nat} (hV : 0 < V) (v : Fin V → ℝ) :
    ∑ i, softmax v i = 1 := by
  haveI : Nonempty (Fin V) := ⟨⟨0, hV⟩⟩
  have hS : 0 < ∑ j, Real.exp (v j) :=
    Finset.sum_pos (fun j _ => Real.exp_pos _) Finset.univ_nonempty
  unfold softmax
  rw [← Finset.sum_div]
  exact div_self hS.ne'

/-- The descending sort is a permutation of the whole vocabulary. -/
theorem sortedByProb_perm {V : Nat} (p : Fin V → ℝ) :
    List.Perm (sortedByProb p) (List.finRange V) :=
  @List.perm_insertionSort (Fin V) (probAbove p) (probAboveDec p)
    (List.finRange V)

/-- topk returns exactly k indices when k is at most the vocabulary
size. -/
theorem topkIndices_length {V : Nat} (p : Fin V → ℝ) {k : Nat} (hk : k ≤ V) :
    (topkIndices p k).length = k := by
  have hlen : (sortedByProb p).length = V := by
    rw [(sortedByProb_perm p).length_eq, List.length_finRange]
  simp [topkIndices, List.length_take, hlen, Nat.min_eq_left hk]

/-- topk returns pairwise distinct indices. -/
theorem topkIndices_nodup {V : Nat} (p : Fin V → ℝ) (k : Nat) :
    (topkIndices p k).Nodup :=
  List.Nodup.sublist (List.take_sublist k _)
    ((sortedByProb_perm p).nodup_iff.mpr (List.nodup_finRange V))

/-- For a nonnegative vector summing to one over the vocabulary, the
scores of the returned top-k subset sum to at most one. -/
theorem topkIndices_map_sum_le {V : Nat} (p : Fin V → ℝ)
    (hp0 : ∀ i, 0 ≤ p i) (hp1 : ∑ i, p i = 1) (k : Nat) :
    ((topkIndices p k).map p).sum ≤ 1 := by
  have hsum : ((sortedByProb p).map p).sum = 1 := by
    rw [((sortedByProb_perm p).map p).sum_eq, ← Fin.sum_univ_def, hp1]
  have hsplit : (sortedByProb p).map p =
      ((topkIndices p k).map p) ++ (((sortedByProb p).drop k).map p) := by
    rw [topkIndices, ← List.map_append, List.take_append_drop]
  have hdrop : 0 ≤ (((sortedByProb p).drop k).map p).sum := by
    refine List.sum_nonneg ?_
    intro x hx
    obtain ⟨i, _, rfl⟩ := List.mem_map.mp hx
    exact hp0 i
  have htot : ((topkIndices p k).map p).sum +
      (((sortedByProb p).drop k).map p).sum = 1 := by
    rw [← List.sum_append, ← hsplit, hsum]
  linarith

/-- On an in-vocabulary window, custom_predict succeeds and returns the
top-k indices of the softmax of the forward outputs together with their
probabilities. -/
theorem custom_predict_ok {V : Nat} (m : DeepLogModel V) (X : List Nat)
    (y k : Nat) (hX : ∀ x ∈ X, x < V) :
    ∃ out, forwardDL { m with training := false } X = .ok out ∧
      (custom_predict m X y k).1 =
        .ok (topkIndices (softmax out) k,
             (topkIndices (softmax out) k).map (softmax out)) := by
  obtain ⟨enc, henc⟩ := encodeWindow_ok X hX
  refine ⟨logSoftmaxFn
    (({ m with training := false } : DeepLogModel V).weights enc), ?_, ?_⟩
  · simp [forwardDL, henc]
  · simp [custom_predict, forwardDL, henc]

/-- C3: a window containing a symbol at or above the vocabulary size
makes the forward pass, and therefore the whole prediction call, fail
with a hard error instead of clamping or ignoring the symbol. -/
theorem out_of_vocabulary_symbol_is_hard_error {V : Nat}
    (m : DeepLogModel V) (X : List Nat) (y k : Nat) (h : ∃ x ∈ X, V ≤ x) :
    (∃ e, forwardDL m X = .error e) ∧
    ∃ e, (custom_predict m X y k).1 = .error e := by
  obtain ⟨e, he⟩ := encodeWindow_error X h
  exact ⟨⟨e, by simp [forwardDL, he]⟩,
         ⟨e, by simp [custom_predict, forwardDL, he]⟩⟩

/-- Witness for C3: the vocabulary has size 17 and the window holds the
cluster id 17, the scenario-D mismatch. -/
theorem out_of_vocabulary_symbol_is_hard_error_witness :
    (∃ x ∈ ([17] : List Nat), 17 ≤ x) ∧
    ((∃ e, forwardDL (⟨fun _ _ => 0, true⟩ : DeepLogModel 17) [17] =
        .error e) ∧
     ∃ e, (custom_predict (⟨fun _ _ => 0, true⟩ : DeepLogModel 17)
        [17] 3 2).1 = .error e) :=
  ⟨by decide, out_of_vocabulary_symbol_is_hard_error
    (⟨fun _ _ => 0, true⟩ : DeepLogModel 17) [17] 3 2 (by decide)⟩

/-- C4: for a valid window and any k between 1 and the vocabulary size,
prediction returns exactly k distinct symbols, their scores sum to at
most one, and the per-call scores form a nonnegative distribution
summing to one over the full vocabulary. -/
theorem predict_returns_k_distinct_and_distribution {V : Nat}
    (m : DeepLogModel V) (X : List Nat) (y k : Nat)
    (hk1 : 1 ≤ k) (hkV : k ≤ V) (hX : ∀ x ∈ X, x < V) :
    ∃ out, forwardDL { m with training := false } X = .ok out ∧
      (custom_predict m X y k).1 =
        .ok (topkIndices (softmax out) k,
             (topkIndices (softmax out) k).map (softmax out)) ∧
      (topkIndices (softmax out) k).length = k ∧
      (topkIndices (softmax out) k).Nodup ∧
      ((topkIndices (softmax out) k).map (softmax out)).sum ≤ 1 ∧
      (∀ i, 0 ≤ softmax out i) ∧ (∑ i, softmax out i) = 1 := by
  have hV : 0 < V := Nat.lt_of_lt_of_le hk1 hkV
  obtain ⟨out, hfwd, hcp⟩ := custom_predict_ok m X y k hX
  exact ⟨out, hfwd, hcp, topkIndices_length _ hkV, topkIndices_nodup _ k,
    topkIndices_map_sum_le _ (fun i => softmax_nonneg _ i)
      (softmax_sum_eq_one hV _) k,
    fun i => softmax_nonneg _ i, softmax_sum_eq_one hV _⟩

/-- Witness for C4 at vocabulary size 2 with k = 1 on the window [0]. -/
theorem predict_returns_k_distinct_and_distribution_witness :
    ((1 : Nat) ≤ 1 ∧ (1 : Nat) ≤ 2 ∧ ∀ x ∈ ([0] : List Nat), x < 2) ∧
    (∃ out, forwardDL { (⟨fun _ _ => 0, true⟩ : DeepLogModel 2) with
        training := false } [0] = .ok out ∧
      (custom_predict (⟨fun _ _ => 0, true⟩ : DeepLogModel 2) [0] 0 1).1 =
        .ok (topkIndices (softmax out) 1,
             (topkIndices (softmax out) 1).map (softmax out)) ∧
      (topkIndices (softmax out) 1).length = 1 ∧
      (topkIndices (softmax out) 1).Nodup ∧
      ((topkIndices (softmax out) 1).map (softmax out)).sum ≤ 1 ∧
      (∀ i, 0 ≤ softmax out i) ∧ (∑ i, softmax out i) = 1) :=
  ⟨⟨by decide, by decide, by decide⟩,
   predict_returns_k_distinct_and_distribution
     (⟨fun _ _ => 0, true⟩ : DeepLogModel 2) [0] 0 1
     (by decide) (by decide) (by decide)⟩

/-- C5: prediction never consults the true label, and a predict call
leaves the learned parameters untouched (only the train/eval mode flag
is set to eval). -/
theorem predict_ignores_label_and_preserves_parameters {V : Nat}
    (m : DeepLogModel V) (X : List Nat) (y1 y2 k : Nat) :
    (custom_predict m X y1 k).1 = (custom_predict m X y2 k).1 ∧
    (custom_predict m X y1 k).2.weights = m.weights := by
  constructor
  · rfl
  · cases hf : forwardDL { m with training := false } X <;>
      simp [custom_predict, hf]

/-- Predictor wrapper used by the detection loop of deeplog_train.py
line 181: custom_predict with k = 2 on the window symbols, the true
label passed along only for logging; none models a raised exception. -/
noncomputable def detectPred {V : Nat} (m : DeepLogModel V) (y : Nat)
    (X : List Nat) : Option (List Nat) :=
  match (custom_predict m X y 2).1 with
  | .ok r => some (r.1.map Fin.val)
  | .error _ => none

/-- C1: for every processed window the emitted verdict is anomalous if
and only if the actual trailing label is absent from the top-2 predicted
set of the model; the decision is the direct membership test of
deeplog_train.py line 183, with no smoothing, score threshold or other
exception. -/
theorem verdict_iff_label_not_in_top2 {V : Nat} (m : DeepLogModel V)
    (seq : List Nat) (h20 : seq.length = 20) (hX : ∀ x ∈ seq, x < V)
    (hV : 2 ≤ V) :
    ∃ out b,
      forwardDL { m with training := false } (seq.take 19) = .ok out ∧
      (topkIndices (softmax out) 2).length = 2 ∧
      classifyPayload (detectPred m (seq.getD 19 0)) (Payload.intList seq) =
        Outcome.verdict b ∧
      (b = true ↔
        seq.getD 19 0 ∉ (topkIndices (softmax out) 2).map Fin.val) := by
  have hX19 : ∀ x ∈ seq.take 19, x < V := fun x hx =>
    hX x (List.take_subset 19 seq hx)
  simp only [List.getD_eq_getElem?_getD]
  obtain ⟨out, hfwd, hcp⟩ :=
    custom_predict_ok m (seq.take 19) (seq[19]?.getD 0) 2 hX19
  have hnot : ¬ 20 < seq.length := by omega
  have hdp : detectPred m (seq[19]?.getD 0) (seq.take 19) =
      some ((topkIndices (softmax out) 2).map Fin.val) := by
    simp [detectPred, hcp]
  by_cases hm : seq[19]?.getD 0 ∈ (topkIndices (softmax out) 2).map Fin.val
  · refine ⟨out, false, hfwd, topkIndices_length _ hV, ?_, by simp [hm]⟩
    simp only [classifyPayload, if_neg hnot, if_pos h20, hdp]
    simp [hm]
  · refine ⟨out, true, hfwd, topkIndices_length _ hV, ?_, by simp [hm]⟩
    simp only [classifyPayload, if_neg hnot, if_pos h20, hdp]
    simp [hm]

/-- Witness for C1: vocabulary size 2, the all-zero window of length
20. -/
theorem verdict_iff_label_not_in_top2_witness :
    ((List.replicate 20 0 : List Nat).length = 20 ∧
     (∀ x ∈ (List.replicate 20 0 : List Nat), x < 2) ∧ (2 : Nat) ≤ 2) ∧
    (∃ out b,
      forwardDL { (⟨fun _ _ => 0, true⟩ : DeepLogModel 2) with
        training := false } ((List.replicate 20 0 : List Nat).take 19) =
          .ok out ∧
      (topkIndices (softmax out) 2).length = 2 ∧
      classifyPayload
        (detectPred (⟨fun _ _ => 0, true⟩ : DeepLogModel 2)
          ((List.replicate 20 0 : List Nat).getD 19 0))
        (Payload.intList (List.replicate 20 0)) = Outcome.verdict b ∧
      (b = true ↔
        (List.replicate 20 0 : List Nat).getD 19 0 ∉
          (topkIndices (softmax out) 2).map Fin.val)) :=
  ⟨⟨by decide, by decide, by decide⟩,
   verdict_iff_label_not_in_top2 (⟨fun _ _ => 0, true⟩ : DeepLogModel 2)
     (List.replicate 20 0) (by decide) (by decide) (by decide)⟩

/-- Modelled from the spec: a template position of the clustering engine,
either a literal token or the wildcard.  The engine itself is the
external drain3 package invoked by
src/src/drain3/forward_logs_to_drain3.py (template_miner.add_log_message);
its algorithm is taken from spec section 4.1. -/
inductive TemplToken where
  | lit : String → TemplToken
  | wildcard : TemplToken
deriving DecidableEq

/-- One template position only ever stays equal or becomes the
wildcard. -/
def generalizes (t t2 : TemplToken) : Prop :=
  t2 = t ∨ t2 = TemplToken.wildcard

/-- Modelled from the spec: a template token matches an incoming token
when it is the wildcard or the equal literal. -/
def tokenMatches : TemplToken → String → Bool
  | .wildcard, _ => true
  | .lit s, t => s == t

/-- Modelled from the spec: similarity is the fraction of positions
whose template token matches the incoming token, wildcards counting as
automatic matches. -/
def similarity (template : List TemplToken) (tokens : List String) : ℚ :=
  ((List.zipWith tokenMatches template tokens).count true : ℚ) /
    (tokens.length : ℚ)

/-- Modelled from the spec: widening a matched template, every position
whose token disagrees with the incoming token becomes the wildcard. -/
def widen (template : List TemplToken) (tokens : List String) :
    List TemplToken :=
  List.zipWith (fun tt t => if tokenMatches tt t then tt else .wildcard)
    template tokens

/-- Modelled from the spec: a cluster of the template-clustering engine,
with its stable id, template, token count and match count. -/
structure Cluster where
  id : Nat
  template : List TemplToken
  token_count : Nat
  match_count : Nat
deriving DecidableEq

/-- Modelled from the spec: the engine state, clusters held
most-recently-created first, together with the next unused id. -/
structure ClusterState where
  clusters : List Cluster
  next_id : Nat
deriving DecidableEq

/-- Modelled from the spec, section 4.1 steps 1-3: scan the clusters
most-recent-first; the first one of matching token count with similarity
at least the threshold is selected, its disagreeing positions widened
and its match count incremented. -/
def classifyAux (θ : ℚ) (tokens : List String) :
    List Cluster → Option (List Cluster × Nat)
  | [] => none
  | c :: cs =>
      if c.token_count = tokens.length ∧ θ ≤ similarity c.template tokens then
        some ({ c with
                  template := widen c.template tokens,
                  match_count := c.match_count + 1 } :: cs, c.id)
      else
        match classifyAux θ tokens cs with
        | some (cs2, i) => some (c :: cs2, i)
        | none => none

/-- Modelled from the spec, section 4.1: classify a token sequence; an
empty sequence is rejected with no cluster assigned; on no match a fresh
cluster is allocated with the tokens as literal template and the next
unused id. -/
def classify (θ : ℚ) (st : ClusterState) (tokens : List String) :
    ClusterState × Option Nat :=
  if tokens.isEmpty then (st, none)
  else
    match classifyAux θ tokens st.clusters with
    | some (cs2, i) => ({ st with clusters := cs2 }, some i)
    | none =>
        ({ clusters := { id := st.next_id,
                         template := tokens.map TemplToken.lit,
                         token_count := tokens.length,
                         match_count := 1 } :: st.clusters,
           next_id := st.next_id + 1 }, some st.next_id)

/-- Widening only preserves or widens each position. -/
theorem widen_generalizes :
    ∀ (tpl : List TemplToken) (toks : List String),
    tpl.length = toks.length →
    List.Forall₂ generalizes tpl (widen tpl toks) := by
  intro tpl
  induction tpl with
  | nil =>
      intro toks h
      cases toks with
      | nil => exact List.Forall₂.nil
      | cons t ts => cases h
  | cons tt tpl ih =>
      intro toks h
      cases toks with
      | nil => cases h
      | cons t ts =>
          refine List.Forall₂.cons ?_ (ih ts (Nat.succ_injective h))
          by_cases hm : tokenMatches tt t
          · exact Or.inl (by simp [widen, hm])
          · exact Or.inr (by simp [widen, hm])

/-- Position-wise reading of generalization: a wildcard position stays a
wildcard. -/
theorem generalizes_keeps_wildcard :
    ∀ {l l2 : List TemplToken}, List.Forall₂ generalizes l l2 →
    ∀ (i : Nat), l[i]? = some TemplToken.wildcard →
      l2[i]? = some TemplToken.wildcard := by
  intro l l2 h
  induction h with
  | nil => intro i hi; cases hi
  | cons hg htail ih =>
      intro i hi
      cases i with
      | zero =>
          simp only [List.getElem?_cons_zero, Option.some.injEq] at hi ⊢
          rcases hg with hg | hg
          · rw [hg, hi]
          · exact hg
      | succ j =>
          simp only [List.getElem?_cons_succ] at hi ⊢
          exact ih j hi

/-- The matching scan never narrows any existing cluster: every cluster
survives with the same id and a template that only preserved or widened
its positions. -/
theorem classifyAux_preserves (θ : ℚ) (toks : List String) :
    ∀ (cs : List Cluster),
    (∀ d ∈ cs, d.template.length = d.token_count) →
    ∀ (res : List Cluster × Nat), classifyAux θ toks cs = some res →
    ∀ c ∈ cs, ∃ c2 ∈ res.1, c2.id = c.id ∧
      List.Forall₂ generalizes c.template c2.template := by
  intro cs
  induction cs with
  | nil => intro _ res hres; cases hres
  | cons d cs ih =>
      intro hwf res hres c hc
      by_cases hcond :
          d.token_count = toks.length ∧ θ ≤ similarity d.template toks
      · simp only [classifyAux, if_pos hcond] at hres
        cases hres
        rcases List.mem_cons.mp hc with rfl | hc2
        · refine ⟨{ c with
                      template := widen c.template toks,
                      match_count := c.match_count + 1 },
                    List.mem_cons_self _ _, rfl, ?_⟩
          exact widen_generalizes c.template toks
            ((hwf c (List.mem_cons_self c cs)).trans hcond.1)
        · exact ⟨c, List.mem_cons_of_mem _ hc2, rfl,
            (List.forall₂_same).mpr fun x _ => Or.inl rfl⟩
      · simp only [classifyAux, if_neg hcond] at hres
        cases hrec : classifyAux θ toks cs with
        | none => rw [hrec] at hres; cases hres
        | some res2 =>
            rw [hrec] at hres
            cases hres
            rcases List.mem_cons.mp hc with rfl | hc2
            · exact ⟨c, List.mem_cons_self _ _, rfl,
                (List.forall₂_same).mpr fun x _ => Or.inl rfl⟩
            · obtain ⟨c2, hc2m, hid, hgen⟩ := ih
                (fun e he => hwf e (List.mem_cons_of_mem d he)) res2 hrec c hc2
              exact ⟨c2, List.mem_cons_of_mem _ hc2m, hid, hgen⟩

/-- C8: template generalization is monotone; after classifying any
input, every pre-existing cluster is still present under its id with a
template in which each position was preserved or widened, so a position
already wildcarded can never return to a literal. -/
theorem classify_generalization_monotone (θ : ℚ) (st : ClusterState)
    (toks : List String)
    (hwf : ∀ d ∈ st.clusters, d.template.length = d.token_count)
    (c : Cluster) (hc : c ∈ st.clusters) :
    ∃ c2 ∈ (classify θ st toks).1.clusters, c2.id = c.id ∧
      List.Forall₂ generalizes c.template c2.template ∧
      ∀ (i : Nat), c.template[i]? = some TemplToken.wildcard →
        c2.template[i]? = some TemplToken.wildcard := by
  by_cases hemp : toks.isEmpty
  · refine ⟨c, ?_, rfl, (List.forall₂_same).mpr fun x _ => Or.inl rfl,
      fun i hi => hi⟩
    simp [classify, hemp, hc]
  · cases haux : classifyAux θ toks st.clusters with
    | some res =>
        obtain ⟨c2, hc2m, hid, hgen⟩ :=
          classifyAux_preserves θ toks st.clusters hwf res haux c hc
        refine ⟨c2, ?_, hid, hgen, generalizes_keeps_wildcard hgen⟩
        simp [classify, hemp, haux]
        exact hc2m
    | none =>
        refine ⟨c, ?_, rfl, (List.forall₂_same).mpr fun x _ => Or.inl rfl,
          fun i hi => hi⟩
        simp [classify, hemp, haux]
        exact Or.inr hc

/-- Witness for C8: a cluster whose first position is already a
wildcard, classified against a further matching line. -/
theorem classify_generalization_monotone_witness :
    ((∀ d ∈ ([⟨1, [TemplToken.wildcard, TemplToken.lit "to"], 2, 3⟩] :
        List Cluster), d.template.length = d.token_count) ∧
     (⟨1, [TemplToken.wildcard, TemplToken.lit "to"], 2, 3⟩ : Cluster) ∈
       ([⟨1, [TemplToken.wildcard, TemplToken.lit "to"], 2, 3⟩] :
        List Cluster)) ∧
    (∃ c2 ∈ (classify ((1 : ℚ)/2)
        ⟨[⟨1, [TemplToken.wildcard, TemplToken.lit "to"], 2, 3⟩], 2⟩
        ["connect", "to"]).1.clusters,
      c2.id = (⟨1, [TemplToken.wildcard, TemplToken.lit "to"], 2, 3⟩ :
        Cluster).id ∧
      List.Forall₂ generalizes
        (⟨1, [TemplToken.wildcard, TemplToken.lit "to"], 2, 3⟩ :
          Cluster).template c2.template ∧
      ∀ (i : Nat),
        (⟨1, [TemplToken.wildcard, TemplToken.lit "to"], 2, 3⟩ :
          Cluster).template[i]? = some TemplToken.wildcard →
        c2.template[i]? = some TemplToken.wildcard) :=
  ⟨⟨by decide, by decide⟩,
   classify_generalization_monotone ((1 : ℚ)/2)
     ⟨[⟨1, [TemplToken.wildcard, TemplToken.lit "to"], 2, 3⟩], 2⟩
     ["connect", "to"] (by decide)
     (⟨1, [TemplToken.wildcard, TemplToken.lit "to"], 2, 3⟩ : Cluster)
     (by decide)⟩
